import Mathlib

/-!
Shallow embedding of `src/lib/service/neo4j.model.service.ts` from
luqamit/nestjs-neo4j: the generic `Neo4jModelService` query builders
(create / merge / delete / findAll / findBy / searchBy), the pagination
normalizer `_convertSkipLimit`, the default property mappers
`toNeo4j` / `fromNeo4j`, and the execution wrapper `_runWithDebug`;
together with a semantic model of the Cypher statements the builders
emit (token scoring for searchBy, MERGE match-or-create semantics).
-/

namespace NeoModel

/-- Scalar property values of a node property bag: string, number
(modelled as `Int`; the claims never involve non-integral numbers) or
boolean. -/
inductive Scalar where
  | str (s : String)
  | int (n : Int)
  | bool (b : Bool)
deriving DecidableEq, Repr

/-- A property value is a scalar or an array of scalars, matching the
spec data model (string, number, boolean, or arrays thereof). -/
inductive Value where
  | scalar (s : Scalar)
  | arr (l : List Scalar)
deriving DecidableEq, Repr

/-- A property bag: `Record<string, any>` modelled as an association
list from property name to value.  A bag that actually arises from a
JavaScript object has pairwise distinct keys (`keysNodup`). -/
abbrev Bag := List (String × Value)

/-- The keys of a bag, in insertion order. -/
def bagKeys (b : Bag) : List String := b.map Prod.fst

/-- `split(value, ' ')` of Cypher on the character-list level: split at
every occurrence of the separator, keeping empty fragments. -/
def splitChars (sep : Char) : List Char → List (List Char)
  | [] => [[]]
  | c :: cs =>
    match splitChars sep cs with
    | [] => [[]]
    | w :: ws => if c = sep then [] :: w :: ws else (c :: w) :: ws

/-- The `words` of searchBy: the prop value split on the space
character, as the emitted `split(n.prop, ' ')` does. -/
def strSplitWords (v : String) : List String :=
  (splitChars ' ' v.toList).map (fun cs => String.mk cs)

/-- `p` begins the character list `s`. -/
def beginsWith : List Char → List Char → Bool
  | [], _ => true
  | _ :: _, [] => false
  | p :: ps, c :: cs => p = c && beginsWith ps cs

/-- `s` has `pat` as a contiguous sublist (Cypher `CONTAINS` on the
character-list level). -/
def hasSub (pat : List Char) : List Char → Bool
  | [] => beginsWith pat []
  | c :: cs => beginsWith pat (c :: cs) || hasSub pat cs

/-- Cypher `w CONTAINS pat` for strings. -/
def strContains (w pat : String) : Bool := hasSub pat.toList w.toList

/-- The score one (term, word) pair contributes in the emitted
reduce-expression: 4 on exact equality, otherwise 2 on substring
containment, otherwise 0. -/
def pairScore (st w : String) : Int :=
  if w = st then 4 else if strContains w st then 2 else 0

/-- The score expression of the searchBy statement (quoted from the
source): 100 when the separator-free join of the terms equals the
separator-free join of the words, else the nested reduce. -/
def searchScore (terms words : List String) : Int :=
  if String.join terms = String.join words then 100
  else
    terms.foldl
      (fun s st =>
        s + words.foldl
          (fun s2 w =>
            if w = st then s2 + 4 else if strContains w st then s2 + 2 else s2)
          0)
      0

/-- The candidate filter of the searchBy statement:
`ANY (term IN $terms WHERE ANY(word IN words WHERE word CONTAINS term))`. -/
def candidateFilter (terms words : List String) : Bool :=
  terms.any (fun t => words.any (fun w => strContains w t))

/-- One hexadecimal digit (lowercase), for JSON control-character
escapes. -/
def hexDigit (n : Nat) : Char :=
  if n < 10 then Char.ofNat (48 + n) else Char.ofNat (87 + n)

/-- `JSON.stringify` escaping of one character inside a string
literal. -/
def jsonEscapeChar (c : Char) : String :=
  if c = '"' then "\\\""
  else if c = '\\' then "\\\\"
  else if c = '\x08' then "\\b"
  else if c = '\x0c' then "\\f"
  else if c = '\n' then "\\n"
  else if c = '\r' then "\\r"
  else if c = '\t' then "\\t"
  else if c.toNat < 32 then
    "\\u00" ++ String.mk [hexDigit (c.toNat / 16), hexDigit (c.toNat % 16)]
  else String.singleton c

/-- `JSON.stringify` of a scalar value. -/
def jsonOfScalar : Scalar → String
  | Scalar.str s => "\"" ++ String.join (s.toList.map jsonEscapeChar) ++ "\""
  | Scalar.int n => toString n
  | Scalar.bool b => if b then "true" else "false"

/-- `JSON.stringify` of a property value (arrays render with comma
separators and no spaces, as in JavaScript). -/
def jsonOfValue : Value → String
  | Value.scalar s => jsonOfScalar s
  | Value.arr l => "[" ++ String.intercalate "," (l.map jsonOfScalar) ++ "]"

/-- JavaScript object assignment `acc[k] = v`: replace the first
binding of `k` in place, else append. -/
def setKey (b : Bag) (k : String) (v : Value) : Bag :=
  match b with
  | [] => [(k, v)]
  | (k', v') :: rest => if k' = k then (k, v) :: rest else (k', v') :: setKey rest k v

/-- The object-spread shallow copy `(t) => ({ ...t })`: copy the own
properties in insertion order into a fresh object.  This is the default
body of both `toNeo4j` and `fromNeo4j`. -/
def spreadCopy (b : Bag) : Bag :=
  b.foldl (fun acc kv => setKey acc kv.1 kv.2) []

/-- A model-service instance: the configured label, the timestamp
marker (the empty string plays the role of an unset / falsy marker),
and the two overridable property mappers. -/
structure ModelService where
  label : String
  timestamp : String
  toNeo4j : Bag → Bag
  fromNeo4j : Bag → Bag

/-- A service with the default (shallow-copy) mappers. -/
def defaultService (label ts : String) : ModelService :=
  ⟨label, ts, spreadCopy, spreadCopy⟩

/-- A bound statement parameter: a property bag, a `neo4j.int` 64-bit
integer, or a list of strings (the search terms). -/
inductive ParamValue where
  | bag (b : Bag)
  | int64 (n : Int)
  | strList (l : List String)
deriving DecidableEq, Repr

/-- The result of a query builder: statement text, bound parameter
mapping, and the write routing hint from `sessionOptions`. -/
structure CypherQuery where
  cypher : String
  params : List (String × ParamValue)
  write : Bool
deriving DecidableEq, Repr

/-- The optional `\x7bskip?, limit?\x7d` argument of the pagination
normalizer. -/
structure PageIn where
  skip : Option Int
  limit : Option Int
deriving DecidableEq, Repr

/-- JavaScript `x || d` on an optional number: `undefined` and `0` are
falsy and give the default, every other number passes through. -/
def orFalsy (x : Option Int) (d : Int) : Int :=
  match x with
  | none => d
  | some v => if v = 0 then d else v

/-- `neo4j.int`: encode as the driver's native signed 64-bit integer
(two's-complement wrap). -/
def neo4jInt (n : Int) : Int := (n + 2 ^ 63) % 2 ^ 64 - 2 ^ 63

/-- `_convertSkipLimit`: skip defaults to 0, limit to 10, both through
`neo4j.int`. -/
def convertSkipLimit (p : Option PageIn) : Int × Int :=
  (neo4jInt (orFalsy (p.bind PageIn.skip) 0),
   neo4jInt (orFalsy (p.bind PageIn.limit) 10))

/-- The `skip` / `limit` entries every paginated statement binds. -/
def skipLimitParams (p : Option PageIn) : List (String × ParamValue) :=
  [("skip", ParamValue.int64 (convertSkipLimit p).1),
   ("limit", ParamValue.int64 (convertSkipLimit p).2)]

/-- `createQuery`:
`CREATE (n:L) SET n=$props [SET n.ts = timestamp() ]RETURN properties(n) AS created`
with `$props` bound to `toNeo4j(props)` and write routing. -/
def createQuery (svc : ModelService) (props : Bag) : CypherQuery :=
  ⟨"CREATE (n:`" ++ svc.label ++ "`) SET n=$props "
      ++ (if svc.timestamp = "" then ""
          else "SET n.`" ++ svc.timestamp ++ "` = timestamp() ")
      ++ "RETURN properties(n) AS created",
   [("props", ParamValue.bag (svc.toNeo4j props))], true⟩

/-- The MERGE pattern body: every key of the bag, identifier-quoted,
paired with a `$props` reference, comma-joined (the template literal
interpolates the mapped array, which JavaScript joins with commas). -/
def mergePattern (props : Bag) : String :=
  String.intercalate "," (props.map (fun kv => "`" ++ kv.1 ++ "`:$props.`" ++ kv.1 ++ "`"))

/-- `mergeQuery`:
`MERGE (n:L\x7bpattern\x7d)[ ON CREATE SET n.ts = timestamp()] RETURN properties(n) AS merged`
with `$props` bound to `toNeo4j(props)` and write routing. -/
def mergeQuery (svc : ModelService) (props : Bag) : CypherQuery :=
  ⟨"MERGE (n:`" ++ svc.label ++ "`\x7b" ++ mergePattern props ++ "\x7d)"
      ++ (if svc.timestamp = "" then ""
          else " ON CREATE SET n.`" ++ svc.timestamp ++ "` = timestamp()")
      ++ " RETURN properties(n) AS merged",
   [("props", ParamValue.bag (svc.toNeo4j props))], true⟩

/-- The literal equality filter used by delete and findBy: every key of
the bag, identifier-quoted, paired with the `JSON.stringify` rendering
of its value, comma-joined. -/
def literalFilter (props : Bag) : String :=
  String.intercalate "," (props.map (fun kv => "`" ++ kv.1 ++ "`:" ++ jsonOfValue kv.2))

/-- `deleteQuery`: matches by label plus literal filter over the RAW
(unmapped) bag, captures properties, deletes, returns the captures;
the parameter mapping still carries `toNeo4j(props)` although the text
never references `$props`. -/
def deleteQuery (svc : ModelService) (props : Bag) : CypherQuery :=
  ⟨"MATCH (n:`" ++ svc.label ++ "`\x7b" ++ literalFilter props
      ++ "\x7d) WITH n, properties(n) AS deleted DELETE n RETURN deleted",
   [("props", ParamValue.bag (svc.toNeo4j props))], true⟩

/-- JavaScript truthiness of an optional string (`undefined` and `""`
are falsy). -/
def optStrTruthy : Option String → Bool
  | none => false
  | some s => s != ""

/-- JavaScript truthiness of an optional boolean. -/
def optBoolTruthy : Option Bool → Bool
  | none => false
  | some b => b

/-- The optional `ORDER BY` clause of findAll / findBy. -/
def orderClause (orderBy : Option String) (descending : Option Bool) : String :=
  if optStrTruthy orderBy
  then " ORDER BY n.`" ++ orderBy.getD "" ++ "`"
      ++ (if optBoolTruthy descending then " DESC" else "")
  else ""

/-- The optional argument of findAll. -/
structure FindParams where
  skip : Option Int
  limit : Option Int
  orderBy : Option String
  descending : Option Bool
deriving DecidableEq, Repr

/-- `findAllQuery`: match all nodes of the label, optional ordering,
bound skip/limit, read routing (no sessionOptions). -/
def findAllQuery (svc : ModelService) (p : Option FindParams) : CypherQuery :=
  ⟨"MATCH (n:`" ++ svc.label ++ "`) RETURN properties(n) AS matched"
      ++ (match p with
          | none => ""
          | some fp => orderClause fp.orderBy fp.descending)
      ++ " SKIP $skip LIMIT $limit",
   skipLimitParams (p.map (fun fp => ⟨fp.skip, fp.limit⟩)), false⟩

/-- The argument of findBy: a filter bag plus pagination/ordering. -/
structure FindByParams where
  props : Bag
  skip : Option Int
  limit : Option Int
  orderBy : Option String
  descending : Option Bool
deriving DecidableEq, Repr

/-- `findByQuery`: matches by label plus literal filter over the
`toNeo4j`-MAPPED bag, optional ordering, bound skip/limit, read
routing. -/
def findByQuery (svc : ModelService) (p : FindByParams) : CypherQuery :=
  ⟨"MATCH (n:`" ++ svc.label ++ "`\x7b" ++ literalFilter (svc.toNeo4j p.props)
      ++ "\x7d) RETURN properties(n) AS matched"
      ++ orderClause p.orderBy p.descending
      ++ " SKIP $skip LIMIT $limit",
   skipLimitParams (some ⟨p.skip, p.limit⟩), false⟩

/-- The searchBy statement text, quoted from the source template
literal (label and prop are the only interpolations; terms, skip and
limit are bound parameters). -/
def searchCypher (label prop : String) : String :=
  "MATCH (n:`" ++ label ++ "`) WITH n, split(n.`" ++ prop
    ++ "`, \x27 \x27) as words\n    WHERE ANY (term IN $terms WHERE ANY(word IN words WHERE word CONTAINS term))\n    WITH n, words, \n    CASE WHEN apoc.text.join($terms, \x27\x27) = apoc.text.join(words, \x27\x27) THEN 100\n    ELSE reduce(s = 0, st IN $terms | s + reduce(s2 = 0, w IN words | CASE WHEN (w = st) THEN (s2 + 4) ELSE CASE WHEN (w CONTAINS st) THEN (s2 +2) ELSE (s2) END END)) END AS score \n    ORDER BY score DESC SKIP $skip LIMIT $limit RETURN properties(n) as matched, score"

/-- The argument of searchBy. -/
structure SearchParams where
  prop : String
  terms : List String
  skip : Option Int
  limit : Option Int
deriving DecidableEq, Repr

/-- The statement searchBy sends: text from `searchCypher`, terms and
normalized skip/limit as bound parameters, read routing. -/
def searchByQuery (svc : ModelService) (p : SearchParams) : CypherQuery :=
  ⟨searchCypher svc.label p.prop,
   ("terms", ParamValue.strList p.terms) :: skipLimitParams (some ⟨p.skip, p.limit⟩),
   false⟩

/-- Cypher semantics of `split(n.prop, \x27 \x27)` for a node: the words of
the string value of `prop`, or no words when the property is absent or
not a string (a null `words` makes the inner ANY null, filtering the
node out, which the empty word list reproduces). -/
def wordsOfNode (prop : String) (node : Bag) : List String :=
  match List.lookup prop node with
  | some (Value.scalar (Scalar.str v)) => strSplitWords v
  | _ => []

/-- The searchBy WHERE clause evaluated at a node. -/
def nodePasses (terms : List String) (prop : String) (node : Bag) : Bool :=
  candidateFilter terms (wordsOfNode prop node)

/-- Insertion step of the descending sort on scores. -/
def insertByScore (x : Bag × Int) : List (Bag × Int) → List (Bag × Int)
  | [] => [x]
  | y :: ys => if y.2 ≤ x.2 then x :: y :: ys else y :: insertByScore x ys

/-- `ORDER BY score DESC` (ties in an unspecified order; any
descending sort models the statement). -/
def sortByScoreDesc (l : List (Bag × Int)) : List (Bag × Int) :=
  l.foldr insertByScore []

/-- Cypher semantics of the searchBy statement over a store of nodes of
the configured label: filter candidates, score them, sort by score
descending, then apply SKIP and LIMIT. -/
def searchByExec (store : List Bag) (prop : String) (terms : List String)
    (skip limit : Nat) : List (Bag × Int) :=
  let survivors := store.filter (fun n => nodePasses terms prop n)
  let scored := survivors.map (fun n => (n, searchScore terms (wordsOfNode prop n)))
  ((sortByScoreDesc scored).drop skip).take limit

/-- The searchBy facade: run the statement semantics with the
normalized skip/limit and map each row through `fromNeo4j`, keeping the
score. -/
def searchBy (svc : ModelService) (store : List Bag) (p : SearchParams) :
    List (Bag × Int) :=
  let sl := convertSkipLimit (some ⟨p.skip, p.limit⟩)
  (searchByExec store p.prop p.terms sl.1.toNat sl.2.toNat).map
    (fun r => (svc.fromNeo4j r.1, r.2))

/-- A node satisfies the MERGE pattern of a bag: it carries every
(key, value) pair of the bag. -/
def bagMatches (pat node : Bag) : Bool :=
  pat.all (fun kv => List.lookup kv.1 node == some kv.2)

/-- Cypher semantics of the mergeQuery statement (for the default
property mapper, whose bound `$props` equals the raw bag): if some node
of the store satisfies the full-bag pattern, return it and leave the
store unchanged; otherwise create a node carrying exactly the pattern
properties, stamp the timestamp marker on this creation branch only,
and append it. -/
def mergeExec (store : List Bag) (props : Bag) (ts : String) (now : Int) :
    Bag × List Bag :=
  match store.find? (fun n => bagMatches props n) with
  | some n => (n, store)
  | none =>
    let n := if ts = "" then spreadCopy props
             else setKey (spreadCopy props) ts (Value.scalar (Scalar.int now))
    (n, store ++ [n])

/-- Cypher semantics of the createQuery statement (default mapper): a
fresh node is set to the bag (`SET n=$props`) and, when a timestamp
marker is configured, unconditionally stamped with the server time. -/
def createExec (store : List Bag) (props : Bag) (ts : String) (now : Int) :
    Bag × List Bag :=
  let n := if ts = "" then spreadCopy props
           else setKey (spreadCopy props) ts (Value.scalar (Scalar.int now))
  (n, store ++ [n])

/-- `_runWithDebug`: optional-chained `logger?.debug` before and after
the run.  A `none` logger makes both calls no-ops; a `some` logger is
called and any exception it raises propagates (there is no try/catch
around the debug calls in the source). -/
def runWithDebug (logger : Option (String → Except String Unit))
    (entryMsg : String) (exitMsg : List Bag → String)
    (runDb : Except String (List Bag)) : Except String (List Bag) :=
  match (match logger with
         | none => Except.ok ()
         | some dbg => dbg entryMsg) with
  | Except.error e => Except.error e
  | Except.ok _ =>
    match runDb with
    | Except.error e => Except.error e
    | Except.ok results =>
      match (match logger with
             | none => Except.ok ()
             | some dbg => dbg (exitMsg results)) with
      | Except.error e => Except.error e
      | Except.ok _ => Except.ok results

/-- A value-transforming scalar map (appends `!` to strings), used to
exhibit a service whose `toNeo4j` override transforms values. -/
def bangScalar : Scalar → Scalar
  | Scalar.str s => Scalar.str (s ++ "!")
  | s => s

/-- Lift `bangScalar` to values. -/
def bangValue : Value → Value
  | Value.scalar s => Value.scalar (bangScalar s)
  | Value.arr l => Value.arr (l.map bangScalar)

/-- A concrete `toNeo4j` override that keeps keys and transforms
values. -/
def bangMapper (b : Bag) : Bag := b.map (fun kv => (kv.1, bangValue kv.2))

/-- A service overriding `toNeo4j` with `bangMapper`. -/
def bangService (label ts : String) : ModelService :=
  ⟨label, ts, bangMapper, spreadCopy⟩

/-- The node the creation branch of merge / create materialises: the
bag's own properties, plus the timestamp marker when one is
configured. -/
def mergedNode (p : Bag) (ts : String) (now : Int) : Bag :=
  if ts = "" then spreadCopy p
  else setKey (spreadCopy p) ts (Value.scalar (Scalar.int now))

theorem mergeExec_eq (store : List Bag) (p : Bag) (ts : String) (now : Int) :
    mergeExec store p ts now =
      match store.find? (fun n => bagMatches p n) with
      | some n => (n, store)
      | none => (mergedNode p ts now, store ++ [mergedNode p ts now]) := by
  unfold mergeExec mergedNode
  rfl

theorem createExec_eq (store : List Bag) (p : Bag) (ts : String) (now : Int) :
    createExec store p ts now = (mergedNode p ts now, store ++ [mergedNode p ts now]) := by
  unfold createExec mergedNode
  rfl

theorem lookup_mem {k : String} {v : Value} {b : Bag}
    (h : List.lookup k b = some v) : (k, v) ∈ b := by
  induction b with
  | nil => simp [List.lookup] at h
  | cons kv rest ih =>
    obtain ⟨a, w⟩ := kv
    rw [List.lookup] at h
    by_cases hk : k = a
    · simp [hk] at h
      subst hk h
      exact List.mem_cons_self _ _
    · simp [beq_false_of_ne hk] at h
      exact List.mem_cons_of_mem _ (ih h)

theorem keys_of_lookup {k : String} {v : Value} {b : Bag}
    (h : List.lookup k b = some v) : k ∈ bagKeys b :=
  List.mem_map_of_mem Prod.fst (lookup_mem h)

theorem lookup_of_mem_nodup {k : String} {v : Value} {b : Bag}
    (hnd : (bagKeys b).Nodup) (h : (k, v) ∈ b) : List.lookup k b = some v := by
  induction b with
  | nil => simp at h
  | cons kv rest ih =>
    obtain ⟨a, w⟩ := kv
    simp only [bagKeys, List.map_cons, List.nodup_cons] at hnd
    rcases List.mem_cons.mp h with h1 | h2
    · injection h1 with h1a h1b
      subst h1a
      subst h1b
      simp [List.lookup]
    · rw [List.lookup]
      by_cases hk : k = a
      · subst hk
        exact absurd (List.mem_map_of_mem Prod.fst h2) hnd.1
      · simp only [beq_false_of_ne hk]
        exact ih hnd.2 h2

theorem lookup_setKey_self (b : Bag) (k : String) (v : Value) :
    List.lookup k (setKey b k v) = some v := by
  induction b with
  | nil => simp [setKey, List.lookup]
  | cons kv rest ih =>
    obtain ⟨a, w⟩ := kv
    unfold setKey
    by_cases hk : a = k
    · simp [hk, List.lookup]
    · simp only [if_neg hk, List.lookup, beq_false_of_ne (Ne.symm hk)]
      exact ih

theorem lookup_setKey_ne (b : Bag) {k k' : String} (v : Value) (hne : k' ≠ k) :
    List.lookup k' (setKey b k v) = List.lookup k' b := by
  induction b with
  | nil => simp [setKey, List.lookup, beq_false_of_ne hne]
  | cons kv rest ih =>
    obtain ⟨a, w⟩ := kv
    unfold setKey
    by_cases hk : a = k
    · subst hk
      simp [List.lookup, beq_false_of_ne hne]
    · simp only [if_neg hk, List.lookup]
      by_cases h2 : k' = a
      · simp [h2]
      · simp only [beq_false_of_ne h2]
        exact ih

theorem setKey_append_of_not_mem (b : Bag) (k : String) (v : Value)
    (h : k ∉ bagKeys b) : setKey b k v = b ++ [(k, v)] := by
  induction b with
  | nil => simp [setKey]
  | cons kv rest ih =>
    obtain ⟨a, w⟩ := kv
    simp only [bagKeys, List.map_cons, List.mem_cons, not_or] at h
    unfold setKey
    rw [if_neg (Ne.symm h.1)]
    simp only [List.cons_append, List.cons.injEq, true_and]
    exact ih h.2

theorem bagKeys_append (b b' : Bag) : bagKeys (b ++ b') = bagKeys b ++ bagKeys b' := by
  simp [bagKeys]

theorem spreadCopy_go (b : Bag) : ∀ acc : Bag, (bagKeys b).Nodup →
    (∀ k ∈ bagKeys b, k ∉ bagKeys acc) →
    b.foldl (fun acc kv => setKey acc kv.1 kv.2) acc = acc ++ b := by
  induction b with
  | nil => intro acc _ _; simp
  | cons kv rest ih =>
    intro acc hnd hdisj
    obtain ⟨a, w⟩ := kv
    simp only [bagKeys, List.map_cons, List.nodup_cons] at hnd
    simp only [List.foldl_cons]
    rw [setKey_append_of_not_mem acc a w (hdisj a (by simp [bagKeys]))]
    rw [ih (acc ++ [(a, w)]) hnd.2]
    · simp
    · intro k hk
      rw [bagKeys_append]
      simp only [List.mem_append, not_or]
      refine ⟨hdisj k (by simp only [bagKeys, List.map_cons, List.mem_cons]; exact Or.inr hk), ?_⟩
      simp only [bagKeys, List.map_cons, List.map_nil, List.mem_singleton]
      intro hka
      subst hka
      exact hnd.1 hk

theorem spreadCopy_eq_self {b : Bag} (h : (bagKeys b).Nodup) : spreadCopy b = b := by
  unfold spreadCopy
  rw [spreadCopy_go b [] h (by simp [bagKeys])]
  simp

theorem foldl_add_eq_sum {α : Type} (f : α → Int) (l : List α) (init : Int) :
    l.foldl (fun s x => s + f x) init = init + (l.map f).sum := by
  induction l generalizing init with
  | nil => simp
  | cons x xs ih =>
    simp only [List.foldl_cons, List.map_cons, List.sum_cons, ih]
    ring

theorem inner_fold_eq (st : String) (words : List String) (init : Int) :
    words.foldl
        (fun s2 w => if w = st then s2 + 4 else if strContains w st then s2 + 2 else s2)
        init
      = init + (words.map (fun w => pairScore st w)).sum := by
  induction words generalizing init with
  | nil => simp
  | cons w ws ih =>
    simp only [List.foldl_cons, List.map_cons, List.sum_cons, ih, pairScore]
    by_cases h1 : w = st
    · simp only [if_pos h1]
      ring
    · by_cases h2 : strContains w st
      · simp only [if_neg h1, if_pos h2]
        ring
      · simp only [if_neg h1, if_neg h2]
        ring

theorem searchScore_eq (terms words : List String) :
    searchScore terms words =
      if String.join terms = String.join words then 100
      else (terms.map (fun t => (words.map (fun w => pairScore t w)).sum)).sum := by
  unfold searchScore
  by_cases h : String.join terms = String.join words
  · simp [h]
  · simp only [if_neg h]
    have hstep :
        (fun (s : Int) (st : String) =>
          s + words.foldl
            (fun s2 w => if w = st then s2 + 4 else if strContains w st then s2 + 2 else s2)
            0)
        = fun (s : Int) (st : String) => s + (words.map (fun w => pairScore st w)).sum := by
      funext s st
      rw [inner_fold_eq]
      ring
    rw [hstep, foldl_add_eq_sum (fun t => (words.map (fun w => pairScore t w)).sum) terms 0]
    ring

theorem strSplitWords_red_blue : strSplitWords "red blue red" = ["red", "blue", "red"] := by
  decide

theorem searchScore_full_match_bonus :
    searchScore ["ab", "cd"] (strSplitWords "ab cd") = 100 := by
  decide

theorem bagMatches_iff (pat node : Bag) :
    bagMatches pat node = true ↔ ∀ kv ∈ pat, List.lookup kv.1 node = some kv.2 := by
  unfold bagMatches
  rw [List.all_eq_true]
  constructor
  · intro h kv hm
    exact eq_of_beq (h kv hm)
  · intro h kv hm
    exact beq_of_eq (h kv hm)

theorem lookup_mergedNode_of_key (p : Bag) (ts : String) (now : Int) {k : String}
    (hnd : (bagKeys p).Nodup) (hk : k ∈ bagKeys p)
    (hts : ts = "" ∨ ts ∉ bagKeys p) :
    List.lookup k (mergedNode p ts now) = List.lookup k p := by
  unfold mergedNode
  by_cases h : ts = ""
  · rw [if_pos h, spreadCopy_eq_self hnd]
  · rw [if_neg h]
    have hne : k ≠ ts := by
      rcases hts with h1 | h1
      · exact absurd h1 h
      · intro hkts
        subst hkts
        exact h1 hk
    rw [lookup_setKey_ne _ _ hne, spreadCopy_eq_self hnd]

theorem bagMatches_mergedNode (p : Bag) (ts : String) (now : Int)
    (hnd : (bagKeys p).Nodup) (hts : ts = "" ∨ ts ∉ bagKeys p) :
    bagMatches p (mergedNode p ts now) = true := by
  rw [bagMatches_iff]
  intro kv hm
  rw [lookup_mergedNode_of_key p ts now hnd (List.mem_map_of_mem Prod.fst hm) hts]
  exact lookup_of_mem_nodup hnd (by simpa using hm)

theorem neo4jInt_range (n : Int) : -2 ^ 63 ≤ neo4jInt n ∧ neo4jInt n < 2 ^ 63 := by
  unfold neo4jInt
  have h1 : (0 : Int) ≤ (n + 2 ^ 63) % 2 ^ 64 :=
    Int.emod_nonneg (n + 2 ^ 63) (by norm_num)
  have h2 : (n + 2 ^ 63) % 2 ^ 64 < 2 ^ 64 :=
    Int.emod_lt_of_pos (n + 2 ^ 63) (by norm_num)
  constructor
  · nlinarith
  · nlinarith

theorem neo4jInt_eq_self {n : Int} (h1 : -2 ^ 63 ≤ n) (h2 : n < 2 ^ 63) :
    neo4jInt n = n := by
  unfold neo4jInt
  have h3 : (n + 2 ^ 63) % 2 ^ 64 = n + 2 ^ 63 :=
    Int.emod_eq_of_lt (by nlinarith) (by nlinarith)
  rw [h3]
  ring

/-- C1: for every node surviving the candidate filter of
`searchBy(prop, terms, skip, limit)`, the score is 100 when the
separator-free concatenation of the terms equals the separator-free
concatenation of the words of the node's prop value (the words the
statement's `split` on the space character produces), and otherwise it
is the sum over each term `t` and each word `w` of 4 for an exact
match, 2 for a proper substring containment, 0 otherwise; in
particular prop value "red blue red" with terms ["red", "blue"] scores
12. -/
theorem C1_search_score_formula (v : String) (terms : List String)
    (hsurv : candidateFilter terms (strSplitWords v) = true) :
    searchScore terms (strSplitWords v) =
      (if String.join terms = String.join (strSplitWords v) then 100
       else (terms.map (fun t => ((strSplitWords v).map (fun w => pairScore t w)).sum)).sum)
    ∧ searchScore ["red", "blue"] (strSplitWords "red blue red") = 12 :=
  ⟨searchScore_eq terms (strSplitWords v), by decide⟩

theorem C1_witness :
    candidateFilter ["red", "blue"] (strSplitWords "red blue red") = true
    ∧ searchScore ["red", "blue"] (strSplitWords "red blue red") = 12 :=
  ⟨by decide, (C1_search_score_formula "red blue red" ["red", "blue"] (by decide)).2⟩

/-- C5: searchBy with an empty terms list returns an empty result set
for every store, prop, skip and limit: the ANY quantifier over the
empty terms list is false at every node, so nothing survives the
candidate filter. -/
theorem C5_empty_terms_empty_result (svc : ModelService) (store : List Bag)
    (prop : String) (skipOpt limitOpt : Option Int) :
    searchBy svc store ⟨prop, [], skipOpt, limitOpt⟩ = [] := by
  unfold searchBy searchByExec
  have hfilter : store.filter (fun n => nodePasses [] prop n) = [] := by
    simp [nodePasses, candidateFilter]
  simp [hfilter, sortByScoreDesc]

/-- C6: the pagination normalizer maps a missing skip to 0 and a
missing limit to 10, passes negative inputs through unchanged
(unvalidated), and both outputs lie in the signed 64-bit integer range
of the driver's native integer encoding. -/
theorem C6_skip_limit_defaults :
    convertSkipLimit (some ⟨none, none⟩) = (0, 10)
    ∧ convertSkipLimit (some ⟨some 5, none⟩) = (5, 10)
    ∧ (∀ sk : Int, ∀ li : Option Int, -2 ^ 63 ≤ sk → sk < 0 →
        (convertSkipLimit (some ⟨some sk, li⟩)).1 = sk)
    ∧ (∀ p : Option PageIn,
        -2 ^ 63 ≤ (convertSkipLimit p).1 ∧ (convertSkipLimit p).1 < 2 ^ 63
        ∧ -2 ^ 63 ≤ (convertSkipLimit p).2 ∧ (convertSkipLimit p).2 < 2 ^ 63) := by
  refine ⟨by decide, by decide, ?_, ?_⟩
  · intro sk li h1 h2
    unfold convertSkipLimit
    simp only [Option.bind_some]
    show neo4jInt (if sk = 0 then 0 else sk) = sk
    rw [if_neg (by omega : ¬ sk = 0)]
    exact neo4jInt_eq_self h1 (by nlinarith)
  · intro p
    unfold convertSkipLimit
    exact ⟨(neo4jInt_range _).1, (neo4jInt_range _).2,
           (neo4jInt_range _).1, (neo4jInt_range _).2⟩

theorem C6_witness :
    (-2 ^ 63 ≤ (-3 : Int)) ∧ ((-3 : Int) < 0)
    ∧ (convertSkipLimit (some ⟨some (-3), none⟩)).1 = -3 :=
  ⟨by norm_num, by norm_num,
   C6_skip_limit_defaults.2.2.1 (-3) none (by norm_num) (by norm_num)⟩

/-- C9: defaulting in the pagination normalizer is decided by falsy
coercion, not key presence: an explicit limit of 0 becomes the default
10 (and is indistinguishable from a missing limit), while an explicit
skip of 0 stays 0. -/
theorem C9_limit_zero_falsy :
    convertSkipLimit (some ⟨some 0, some 0⟩) = (0, 10)
    ∧ (∀ sk : Option Int,
        convertSkipLimit (some ⟨sk, some 0⟩) = convertSkipLimit (some ⟨sk, none⟩)) := by
  constructor
  · decide
  · intro sk
    rfl

/-- C8: for the default (shallow-copy) property mappers,
`fromNeo4j (toNeo4j x) = x` for every property bag `x` (bags arising
from JavaScript objects have pairwise distinct keys). -/
theorem C8_default_roundtrip (label ts : String) (x : Bag)
    (h : (bagKeys x).Nodup) :
    (defaultService label ts).fromNeo4j ((defaultService label ts).toNeo4j x) = x := by
  show spreadCopy (spreadCopy x) = x
  rw [spreadCopy_eq_self h, spreadCopy_eq_self h]

theorem mergePattern_eq_keys (p : Bag) :
    mergePattern p
      = String.intercalate "," ((bagKeys p).map (fun k => "`" ++ k ++ "`:$props.`" ++ k ++ "`")) := by
  unfold mergePattern bagKeys
  rw [List.map_map]
  rfl

/-- C7 (corrected): absence of a logger is not an error (the
optional-chained debug calls are no-ops and the operation returns the
underlying run's result), and the same holds whenever the logger's
debug never throws; the source, however, has no try/catch around the
debug calls, so this isolation rests on the logger contract rather
than on the operation (see the counterexample). -/
theorem C7_logging_isolation (entryMsg : String) (exitMsg : List Bag → String)
    (runDb : Except String (List Bag)) :
    runWithDebug none entryMsg exitMsg runDb = runDb
    ∧ (∀ dbg : String → Except String Unit, (∀ s, dbg s = Except.ok ()) →
        runWithDebug (some dbg) entryMsg exitMsg runDb = runDb) := by
  constructor
  · cases runDb <;> rfl
  · intro dbg hdbg
    cases runDb <;> simp [runWithDebug, hdbg]

theorem C7_witness :
    runWithDebug (some (fun _ => Except.ok ())) "entry" (fun _ => "exit")
        (Except.ok []) = Except.ok [] :=
  (C7_logging_isolation "entry" (fun _ => "exit") (Except.ok [])).2
    (fun _ => Except.ok ()) (fun _ => rfl)

theorem C7_counterexample :
    runWithDebug (some (fun _ => Except.error "boom")) "entry" (fun _ => "exit")
        (Except.ok [[("a", Value.scalar (Scalar.int 1))]])
      = Except.error "boom"
    ∧ runWithDebug none "entry" (fun _ => "exit")
        (Except.ok [[("a", Value.scalar (Scalar.int 1))]])
      = Except.ok [[("a", Value.scalar (Scalar.int 1))]] :=
  ⟨rfl, rfl⟩

/-- C2 (corrected): create, merge and searchBy reference caller values
only through bound parameters — their statement text depends on the key
set (and label / prop / timestamp configuration) alone, with the values
carried in the parameter mapping — but delete (and findBy) render the
filter values as JSON literals directly into the statement text. -/
theorem C2_value_binding (svc : ModelService) (p p' : Bag)
    (hk : bagKeys p = bagKeys p') (sp : SearchParams) :
    (createQuery svc p).cypher = (createQuery svc p').cypher
    ∧ (mergeQuery svc p).cypher = (mergeQuery svc p').cypher
    ∧ (createQuery svc p).params = [("props", ParamValue.bag (svc.toNeo4j p))]
    ∧ (mergeQuery svc p).params = [("props", ParamValue.bag (svc.toNeo4j p))]
    ∧ (searchByQuery svc sp).cypher = searchCypher svc.label sp.prop
    ∧ (searchByQuery svc sp).params
        = ("terms", ParamValue.strList sp.terms) :: skipLimitParams (some ⟨sp.skip, sp.limit⟩)
    ∧ (deleteQuery svc p).cypher
        = "MATCH (n:`" ++ svc.label ++ "`\x7b" ++ literalFilter p
            ++ "\x7d) WITH n, properties(n) AS deleted DELETE n RETURN deleted" := by
  refine ⟨rfl, ?_, rfl, rfl, rfl, rfl, rfl⟩
  unfold mergeQuery
  rw [mergePattern_eq_keys, mergePattern_eq_keys, hk]

theorem C2_witness :
    bagKeys [("k", Value.scalar (Scalar.str "x"))]
      = bagKeys [("k", Value.scalar (Scalar.str "y"))]
    ∧ (mergeQuery (defaultService "L" "") [("k", Value.scalar (Scalar.str "x"))]).cypher
      = (mergeQuery (defaultService "L" "") [("k", Value.scalar (Scalar.str "y"))]).cypher :=
  ⟨by decide,
   (C2_value_binding (defaultService "L" "") [("k", Value.scalar (Scalar.str "x"))]
     [("k", Value.scalar (Scalar.str "y"))] (by decide) ⟨"p", [], none, none⟩).2.1⟩

theorem C2_counterexample :
    (deleteQuery (defaultService "Person" "") [("name", Value.scalar (Scalar.str "alice"))]).cypher
      ≠ (deleteQuery (defaultService "Person" "") [("name", Value.scalar (Scalar.str "bob"))]).cypher
    ∧ (deleteQuery (defaultService "Person" "") [("name", Value.scalar (Scalar.str "alice"))]).cypher
      = "MATCH (n:`Person`\x7b`name`:\"alice\"\x7d) WITH n, properties(n) AS deleted DELETE n RETURN deleted" := by
  constructor
  · decide
  · rfl

/-- C3: with a configured (non-empty) timestamp marker the create
statement sets the marker unconditionally while the merge statement
sets it only under ON CREATE — and the merge semantics return a
matched node unchanged, while the create semantics always stamp the
marker with the server time; with no marker configured neither
statement carries a timestamp clause. -/
theorem C3_timestamp_marker (svc : ModelService) (p : Bag) :
    (svc.timestamp ≠ "" →
      (createQuery svc p).cypher
        = "CREATE (n:`" ++ svc.label ++ "`) SET n=$props "
            ++ ("SET n.`" ++ svc.timestamp ++ "` = timestamp() ")
            ++ "RETURN properties(n) AS created"
      ∧ (mergeQuery svc p).cypher
        = "MERGE (n:`" ++ svc.label ++ "`\x7b" ++ mergePattern p ++ "\x7d)"
            ++ (" ON CREATE SET n.`" ++ svc.timestamp ++ "` = timestamp()")
            ++ " RETURN properties(n) AS merged")
    ∧ (svc.timestamp = "" →
      (createQuery svc p).cypher
        = "CREATE (n:`" ++ svc.label ++ "`) SET n=$props "
            ++ "RETURN properties(n) AS created"
      ∧ (mergeQuery svc p).cypher
        = "MERGE (n:`" ++ svc.label ++ "`\x7b" ++ mergePattern p ++ "\x7d)"
            ++ " RETURN properties(n) AS merged")
    ∧ (∀ store now n, store.find? (fun m => bagMatches p m) = some n →
        mergeExec store p svc.timestamp now = (n, store))
    ∧ (∀ store now, svc.timestamp ≠ "" →
        List.lookup svc.timestamp (createExec store p svc.timestamp now).1
          = some (Value.scalar (Scalar.int now))) := by
  refine ⟨?_, ?_, ?_, ?_⟩
  · intro h
    constructor
    · simp only [createQuery, if_neg h]
    · simp only [mergeQuery, if_neg h]
  · intro h
    constructor
    · simp only [createQuery, if_pos h]
      simp
    · simp only [mergeQuery, if_pos h]
      simp
  · intro store now n hf
    simp [mergeExec_eq, hf]
  · intro store now h
    rw [createExec_eq]
    unfold mergedNode
    rw [if_neg h]
    exact lookup_setKey_self _ _ _

theorem C3_witness :
    (("createdAt" : String) ≠ ""
      ∧ (createQuery (defaultService "Person" "createdAt")
          [("a", Value.scalar (Scalar.int 1))]).cypher
        = "CREATE (n:`Person`) SET n=$props SET n.`createdAt` = timestamp() RETURN properties(n) AS created")
    ∧ mergeExec [[("a", Value.scalar (Scalar.int 1)), ("createdAt", Value.scalar (Scalar.int 5))]]
        [("a", Value.scalar (Scalar.int 1))] "createdAt" 7
      = ([("a", Value.scalar (Scalar.int 1)), ("createdAt", Value.scalar (Scalar.int 5))],
         [[("a", Value.scalar (Scalar.int 1)), ("createdAt", Value.scalar (Scalar.int 5))]]) :=
  ⟨⟨by decide,
    ((C3_timestamp_marker (defaultService "Person" "createdAt")
        [("a", Value.scalar (Scalar.int 1))]).1 (by decide)).1.trans (by decide)⟩,
   (C3_timestamp_marker (defaultService "Person" "createdAt")
       [("a", Value.scalar (Scalar.int 1))]).2.2.1
     [[("a", Value.scalar (Scalar.int 1)), ("createdAt", Value.scalar (Scalar.int 5))]] 7
     [("a", Value.scalar (Scalar.int 1)), ("createdAt", Value.scalar (Scalar.int 5))]
     (by decide)⟩

theorem C8_witness :
    (bagKeys [("a", Value.scalar (Scalar.int 1)), ("b", Value.scalar (Scalar.str "z"))]).Nodup
    ∧ (defaultService "Person" "").fromNeo4j ((defaultService "Person" "").toNeo4j
        [("a", Value.scalar (Scalar.int 1)), ("b", Value.scalar (Scalar.str "z"))])
      = [("a", Value.scalar (Scalar.int 1)), ("b", Value.scalar (Scalar.str "z"))] :=
  ⟨by decide, C8_default_roundtrip "Person" "" _ (by decide)⟩

/-- C4 (corrected): the MERGE pattern lists every key of the bag,
identifier-quoted with a `$props` reference, so the whole bag is the
match key; consequently a repeated merge with the same bag resolves to
the node the first call produced, and a second bag assigning a
different value to some shared key resolves to a distinct node.  (A bag
whose keys are a strict subset can still match the existing node — see
the counterexample — so mere set difference of the bags does not force
distinct nodes.) -/
theorem C4_merge_full_bag_key (p p' : Bag) (ts : String) (now now' : Int)
    (store : List Bag) (hp : (bagKeys p).Nodup)
    (hts : ts = "" ∨ ts ∉ bagKeys p) :
    mergePattern p
      = String.intercalate "," ((bagKeys p).map (fun k => "`" ++ k ++ "`:$props.`" ++ k ++ "`"))
    ∧ (mergeExec (mergeExec store p ts now).2 p ts now').1 = (mergeExec store p ts now).1
    ∧ ((bagKeys p').Nodup → (ts = "" ∨ ts ∉ bagKeys p') →
        ∀ k v v', List.lookup k p = some v → List.lookup k p' = some v' → v ≠ v' →
          (mergeExec (mergeExec [] p ts now).2 p' ts now').1 ≠ (mergeExec [] p ts now).1) := by
  refine ⟨mergePattern_eq_keys p, ?_, ?_⟩
  · cases hf : store.find? (fun n => bagMatches p n) with
    | some n => simp [mergeExec_eq, hf]
    | none =>
      have h2 : (store ++ [mergedNode p ts now]).find? (fun n => bagMatches p n)
          = some (mergedNode p ts now) := by
        simp [List.find?_append, hf, List.find?, bagMatches_mergedNode p ts now hp hts]
      simp [mergeExec_eq, hf, h2]
  · intro hp' hts' k v v' hv hv' hne
    have hffirst : (List.find? (fun n => bagMatches p n) ([] : List Bag)) = none := rfl
    have hkp : k ∈ bagKeys p := keys_of_lookup hv
    have hkp' : k ∈ bagKeys p' := keys_of_lookup hv'
    have hN1 : List.lookup k (mergedNode p ts now) = some v := by
      rw [lookup_mergedNode_of_key p ts now hp hkp hts]
      exact hv
    have hmem' : (k, v') ∈ p' := lookup_mem hv'
    have hmatch : bagMatches p' (mergedNode p ts now) = false := by
      cases hb : bagMatches p' (mergedNode p ts now) with
      | false => rfl
      | true =>
        exfalso
        have := (bagMatches_iff p' (mergedNode p ts now)).mp hb (k, v') hmem'
        rw [hN1] at this
        exact hne (Option.some.inj this)
    have hfsecond : ([mergedNode p ts now].find? (fun n => bagMatches p' n)) = none := by
      simp [List.find?, hmatch]
    have hN2 : List.lookup k (mergedNode p' ts now') = some v' := by
      rw [lookup_mergedNode_of_key p' ts now' hp' hkp' hts']
      exact hv'
    simp only [mergeExec_eq, hffirst, hfsecond, List.nil_append]
    intro heq
    rw [heq, hN1] at hN2
    exact hne (Option.some.injEq .. ▸ hN2)

theorem C4_witness :
    ((bagKeys ([("a", Value.scalar (Scalar.int 1))] : Bag)).Nodup
      ∧ (mergeExec (mergeExec [] [("a", Value.scalar (Scalar.int 1))] "" 0).2
          [("a", Value.scalar (Scalar.int 1))] "" 0).1
        = (mergeExec [] [("a", Value.scalar (Scalar.int 1))] "" 0).1)
    ∧ (mergeExec (mergeExec [] [("a", Value.scalar (Scalar.int 1))] "" 0).2
        [("a", Value.scalar (Scalar.int 2))] "" 0).1
      ≠ (mergeExec [] [("a", Value.scalar (Scalar.int 1))] "" 0).1 :=
  ⟨⟨by decide,
    (C4_merge_full_bag_key [("a", Value.scalar (Scalar.int 1))]
        [("a", Value.scalar (Scalar.int 2))] "" 0 0 [] (by decide) (Or.inl rfl)).2.1⟩,
   (C4_merge_full_bag_key [("a", Value.scalar (Scalar.int 1))]
       [("a", Value.scalar (Scalar.int 2))] "" 0 0 [] (by decide) (Or.inl rfl)).2.2
     (by decide) (Or.inl rfl) "a" (Value.scalar (Scalar.int 1)) (Value.scalar (Scalar.int 2))
     (by decide) (by decide) (by decide)⟩

theorem C4_counterexample :
    ([("a", Value.scalar (Scalar.int 1)), ("b", Value.scalar (Scalar.int 2))] : Bag)
      ≠ [("a", Value.scalar (Scalar.int 1))]
    ∧ (mergeExec
        (mergeExec []
          [("a", Value.scalar (Scalar.int 1)), ("b", Value.scalar (Scalar.int 2))] "" 0).2
        [("a", Value.scalar (Scalar.int 1))] "" 0).1
      = (mergeExec []
          [("a", Value.scalar (Scalar.int 1)), ("b", Value.scalar (Scalar.int 2))] "" 0).1 := by
  constructor
  · decide
  · decide

/-- C10: the delete statement embeds the raw caller-supplied values in
its filter (its text is independent of the `toNeo4j` mapper), while the
findBy statement embeds the `toNeo4j`-mapped values; for the default
shallow-copy mapper the two filters agree, and for a value-transforming
mapper they differ. -/
theorem C10_delete_findBy_filters (svc svc' : ModelService) (p : Bag)
    (fb : FindByParams) :
    (svc.label = svc'.label → (deleteQuery svc p).cypher = (deleteQuery svc' p).cypher)
    ∧ (findByQuery svc fb).cypher
        = "MATCH (n:`" ++ svc.label ++ "`\x7b" ++ literalFilter (svc.toNeo4j fb.props)
            ++ "\x7d) RETURN properties(n) AS matched"
            ++ orderClause fb.orderBy fb.descending
            ++ " SKIP $skip LIMIT $limit"
    ∧ ((bagKeys p).Nodup →
        literalFilter ((defaultService "L" "").toNeo4j p) = literalFilter p)
    ∧ literalFilter (bangMapper [("name", Value.scalar (Scalar.str "a"))])
        ≠ literalFilter [("name", Value.scalar (Scalar.str "a"))] := by
  refine ⟨?_, rfl, ?_, by decide⟩
  · intro h
    simp only [deleteQuery, h]
  · intro h
    show literalFilter (spreadCopy p) = literalFilter p
    rw [spreadCopy_eq_self h]

theorem C10_witness :
    (deleteQuery (defaultService "L" "") [("name", Value.scalar (Scalar.str "a"))]).cypher
      = (deleteQuery (bangService "L" "") [("name", Value.scalar (Scalar.str "a"))]).cypher
    ∧ literalFilter ((defaultService "L" "").toNeo4j [("name", Value.scalar (Scalar.str "a"))])
      = literalFilter [("name", Value.scalar (Scalar.str "a"))] :=
  ⟨(C10_delete_findBy_filters (defaultService "L" "") (bangService "L" "")
      [("name", Value.scalar (Scalar.str "a"))] ⟨[], none, none, none, none⟩).1 rfl,
   (C10_delete_findBy_filters (defaultService "L" "") (bangService "L" "")
      [("name", Value.scalar (Scalar.str "a"))] ⟨[], none, none, none, none⟩).2.2.1
     (by decide)⟩

end NeoModel
